import Mathlib

/-!
Verification development for `sshp.js` (node-sshp): a parallel-ssh driver
that fans one command out to many hosts under a concurrency cap, multiplexes
the per-host output streams under one of three aggregation modes
(line / group / join), and exits with the sum of the per-job exit statuses.

The definitions below are a shallow embedding of `src/sshp.js`.  JavaScript
objects used as string-keyed maps are embedded as insertion-ordered
association lists (`List (String × α)`); `Object.keys` is embedded with the
JavaScript own-property order (canonical array-index keys first, in ascending
numeric order, then the remaining string keys in insertion order).  Machine
numbers are embedded as `Nat` (exit statuses are small non-negative ints) or
`Int` (the unvalidated `maxjobs` option).  The event loop is single threaded,
so a run is embedded as a fold over the serialized sequence of events.
-/

set_option autoImplicit false

namespace Sshp

/-- The two output channels of a child process. -/
inductive StreamKind where
  | stdout
  | stderr
  deriving DecidableEq, Repr

/-- The configuration produced by the option-parsing loop of `sshp.js`
(lines 114–153).  JavaScript falsy defaults are kept: `login = ""` and
`port = 0` mean "option not given" (the source tests them with
`if (login)` / `if (port)`).  `maxjobs` is a plain number with no
validation applied, hence `Int` here. -/
structure Config where
  debug : Bool
  dryrun : Bool
  errorcodes : Bool
  group : Bool
  join : Bool
  silent : Bool
  quiet : Bool
  nostrict : Bool
  login : String
  port : Nat
  maxjobs : Int
  command : List String

/-- The validation performed at `sshp.js:153-163`, in source order:
an empty command, then `group && join`, then `join && silent`; each
prints a message and calls `process.exit(1)`.  Returns the error message
when the configuration is rejected.  Note that `maxjobs` is never
examined here (nor anywhere else before dispatch). -/
def validateConfig (cfg : Config) : Option String :=
  if cfg.command.length = 0 then some "no command specified"
  else if cfg.group && cfg.join then some "option -g and -j are mutually exclusive"
  else if cfg.join && cfg.silent then some "option -j and -s are mutually exclusive"
  else none

/-- The shared ssh argument-vector template built at `sshp.js:177-181`. -/
def sshcommand (cfg : Config) : List String :=
  ["ssh"]
    ++ (if cfg.quiet then ["-q"] else [])
    ++ (if cfg.port ≠ 0 then ["-p", Nat.repr cfg.port] else [])
    ++ (if cfg.login ≠ "" then ["-l", cfg.login] else [])
    ++ (if cfg.nostrict then ["-o", "StrictHostKeyChecking=no"] else [])

/-- The full per-host invocation `sshcommand.concat(host, command)`
(`sshp.js:238`). -/
def cmdFor (cfg : Config) (host : String) : List String :=
  sshcommand cfg ++ [host] ++ cfg.command

/-- The dispatcher-level aggregate state of a run: the completed-job
counter `i` (`sshp.js:234`), the running `exitcode` sum (`sshp.js:228`),
the number of queue callbacks `cb()` that have fired (`tasksDone` — the
queue's drain condition is `tasksDone = number of pushed tasks`), plus
observational traces: the argv of every spawned child, the argv reported
through `vlog`, and the sequence of `close` events processed. -/
structure RunState where
  i : Nat
  exitcode : Nat
  tasksDone : Nat
  spawned : List (List String)
  debugLog : List (List String)
  closes : List (String × Nat)
  deriving DecidableEq, Repr

/-- The initial aggregate state (`i = 0`, `exitcode = 0`, nothing run). -/
def initRunState : RunState :=
  { i := 0, exitcode := 0, tasksDone := 0, spawned := [], debugLog := [], closes := [] }

/-- The child `close` handler at `sshp.js:297-311`: `++i`,
`exitcode += code`, optional status reporting (purely observational,
not modelled), then `cb()`. -/
def closeHandler (st : RunState) (host : String) (code : Nat) : RunState :=
  { st with
    i := st.i + 1,
    exitcode := st.exitcode + code,
    tasksDone := st.tasksDone + 1,
    closes := st.closes ++ [(host, code)] }

/-- One queue task, `processhost` (`sshp.js:236-312`): build the argv,
report it through `vlog` (printed only when `debug` is set), and either
return `cb()` at once in a dry run (no spawn, no close event, `i` and
`exitcode` untouched) or spawn the child and process its terminal
`close` event.  `exitOf host` is the exit status the child for `host`
eventually delivers at its `close` event (a spawn failure is delivered
the same way, as a non-zero status, per the transport interface). -/
def processhost (cfg : Config) (exitOf : String → Nat) (st : RunState) (host : String) :
    RunState :=
  let cmd := cmdFor cfg host
  let st1 := if cfg.debug then { st with debugLog := st.debugLog ++ [cmd] } else st
  if cfg.dryrun then { st1 with tasksDone := st1.tasksDone + 1 }
  else
    let st2 := { st1 with spawned := st1.spawned ++ [cmd] }
    closeHandler st2 host (exitOf host)

/-- A whole run of the queue (`async.queue` at `sshp.js:184`, fed at
`sshp.js:190-193`): every host is pushed, and since the event loop
serializes all completion events, a run is the fold of `processhost`
over the hosts in job-completion order.  The drain condition of the
queue is `tasksDone = hosts.length`. -/
def runQueue (cfg : Config) (exitOf : String → Nat) (hosts : List String) : RunState :=
  hosts.foldl (processhost cfg exitOf) initRunState

/-! ### JavaScript string-keyed objects

`output` and `diff` in `sshp.js` are plain objects used as maps.  They are
embedded as insertion-ordered association lists with unique keys:
assignment to an existing key keeps its position, assignment to a fresh key
appends it. -/

/-- Read of `obj[k]`. -/
def jsGet {α : Type} : List (String × α) → String → Option α
  | [], _ => none
  | p :: rest, k => if p.1 = k then some p.2 else jsGet rest k

/-- Write of `obj[k] = v`: replaces the value at an existing key in place,
otherwise appends the new key at the end (JavaScript property creation
order). -/
def jsSet {α : Type} : List (String × α) → String → α → List (String × α)
  | [], k, v => [(k, v)]
  | p :: rest, k, v => if p.1 = k then (k, v) :: rest else p :: jsSet rest k v

/-- Numeric value of a digit character. -/
def digitVal (c : Char) : Nat := c.toNat - 48

/-- Decimal value of a digit string. -/
def digitsVal (cs : List Char) : Nat := cs.foldl (fun n c => n * 10 + digitVal c) 0

/-- Whether a character list is the canonical decimal representation of a
natural number: non-empty, all digits, and no leading zero (except the
single digit "0" itself). -/
def isCanonicalDecimal : List Char → Bool
  | [] => false
  | c :: rest => c.isDigit && (c != '0' || rest.isEmpty) && rest.all Char.isDigit

/-- Whether a string is a canonical array-index property key in JavaScript:
the canonical decimal representation of a natural number below `2^32 - 1`.
Such keys are enumerated before all other string keys, in ascending numeric
order. -/
def isArrayIndexKey (s : String) : Bool :=
  isCanonicalDecimal s.data && digitsVal s.data < 4294967295

/-- Numeric value of an array-index key (only meaningful on array-index
keys). -/
def keyNumVal (s : String) : Nat := digitsVal s.data

/-- Insert a key into a list sorted by ascending numeric value. -/
def insertAsc (k : String) : List String → List String
  | [] => [k]
  | x :: xs => if keyNumVal k ≤ keyNumVal x then k :: x :: xs else x :: insertAsc k xs

/-- Insertion sort by ascending numeric key value. -/
def sortAsc (l : List String) : List String := l.foldr insertAsc []

/-- ECMAScript own-property enumeration order over a key list: canonical
array-index keys first in ascending numeric order, then the remaining keys
in insertion order. -/
def jsPropOrder (ks : List String) : List String :=
  sortAsc (ks.filter isArrayIndexKey) ++ ks.filter (fun k => !isArrayIndexKey k)

/-- Embedding of `Object.keys(obj)` for the embedded objects. -/
def jsObjectKeys {α : Type} (obj : List (String × α)) : List String :=
  jsPropOrder (obj.map Prod.fst)

/-! ### Per-chunk output handlers -/

/-- One atom written to the terminal by the data handlers:
a `"[host] "` group-mode header line (`console.log`, `sshp.js:257` and
`sshp.js:283` — both go to standard output), a raw chunk written to the
given channel (`process.stdout.write` / `process.stderr.write`), or a
line-mode `"[host] line"` line on the given channel
(`console.log` / `console.error`). -/
inductive OutItem where
  | header (host : String)
  | raw (chan : StreamKind) (text : String)
  | line (chan : StreamKind) (host : String) (text : String)
  deriving DecidableEq, Repr

/-- Modelled from the spec: the external `lazylines.chomp` used at
`sshp.js:265` and `sshp.js:291` strips the trailing newline from a
complete line (spec §4.2: "newline-delimited, newline stripped"). -/
def chomp (s : String) : String := if s.endsWith "\n" then s.dropRight 1 else s

/-- The mutable state touched by the data handlers: the module-level
`lasthost` (`sshp.js:229`, shared by `out` and `err` across all jobs),
the `output` accumulator object (`sshp.js:187`), and the trace of
everything written to the terminal. -/
structure OutState where
  lasthost : Option String
  output : List (String × String)
  written : List OutItem
  deriving DecidableEq, Repr

/-- The stdout data handler `out` (`sshp.js:251-268`): return at once when
silent; in group mode print a `"[host] "` header when `host !== lasthost`
(updating `lasthost`) and then write the raw chunk; in join mode append the
chunk to `output[host]`; otherwise (line mode) print `"[host] line"` with
the line chomped. -/
def out (cfg : Config) (host : String) (st : OutState) (d : String) : OutState :=
  if cfg.silent then st
  else if cfg.group then
    let st1 :=
      if some host ≠ st.lasthost then
        { st with written := st.written ++ [OutItem.header host], lasthost := some host }
      else st
    { st1 with written := st1.written ++ [OutItem.raw StreamKind.stdout d] }
  else if cfg.join then
    { st with output := jsSet st.output host (((jsGet st.output host).getD "") ++ d) }
  else
    { st with written := st.written ++ [OutItem.line StreamKind.stdout host (chomp d)] }

/-- The stderr data handler `err` (`sshp.js:277-294`): same structure as
`out`; the group-mode header still goes through `console.log`, but the raw
chunk and the line go to standard error. -/
def err (cfg : Config) (host : String) (st : OutState) (d : String) : OutState :=
  if cfg.silent then st
  else if cfg.group then
    let st1 :=
      if some host ≠ st.lasthost then
        { st with written := st.written ++ [OutItem.header host], lasthost := some host }
      else st
    { st1 with written := st1.written ++ [OutItem.raw StreamKind.stderr d] }
  else if cfg.join then
    { st with output := jsSet st.output host (((jsGet st.output host).getD "") ++ d) }
  else
    { st with written := st.written ++ [OutItem.line StreamKind.stderr host (chomp d)] }

/-- Dispatch one serialized data event to `out` or `err` by channel. -/
def dataStep (cfg : Config) (st : OutState) : String × StreamKind × String → OutState
  | (host, StreamKind.stdout, d) => out cfg host st d
  | (host, StreamKind.stderr, d) => err cfg host st d

/-- Process a serialized sequence of data events (the single-threaded event
loop delivers them one at a time). -/
def runData (cfg : Config) (st : OutState) (events : List (String × StreamKind × String)) :
    OutState :=
  events.foldl (dataStep cfg) st

/-- The `output` object after the `hosts.forEach` initialization
(`sshp.js:190-192`): every host keyed with the empty string,
in host-list order (a duplicate host resets its existing entry). -/
def initOutput (hosts : List String) : List (String × String) :=
  hosts.foldl (fun o h => jsSet o h "") []

/-- The initial handler state: `lasthost` undefined, `output` initialized
from the host list, nothing written yet. -/
def initOutState (hosts : List String) : OutState :=
  { lasthost := none, output := initOutput hosts, written := [] }

/-! ### The join-mode drain summary -/

/-- The text printed for one join group: `text || 'no output\n'`
(`sshp.js:220` — the empty accumulated output is falsy and is rendered as
"no output" with an extra blank line). -/
def renderJoinText (text : String) : String :=
  if text = "" then "no output\n" else text

/-- The accumulated text of a host, `output[host]` (empty when absent). -/
def textOf (output : List (String × String)) (h : String) : String :=
  (jsGet output h).getD ""

/-- The body of the `outputkeys.forEach` loop at `sshp.js:202-206`:
`var text = output[host]; diff[text] = diff[text] || []; diff[text].push(host)`. -/
def diffStep (output : List (String × String)) (d : List (String × List String))
    (host : String) : List (String × List String) :=
  let text := textOf output host
  jsSet d text (((jsGet d text).getD []) ++ [host])

/-- The `diff` object built at drain (`sshp.js:200-206`): iterate the hosts
in `Object.keys(output)` order and push each host onto `diff[text]` where
`text = output[host]`. -/
def buildDiff (output : List (String × String)) (ks : List String) :
    List (String × List String) :=
  ks.foldl (diffStep output) []

/-- The join-mode drain summary (`sshp.js:198-221`): one entry per key of
`diff` in `Object.keys(diff)` order, carrying the group's host list and the
printed text. -/
def joinSummary (output : List (String × String)) : List (List String × String) :=
  let outputkeys := jsObjectKeys output
  let diff := buildDiff output outputkeys
  (jsObjectKeys diff).map (fun text => (((jsGet diff text).getD []), renderJoinText text))

/-! ### Specification-side renderings

These definitions restate behaviour in the spec's terms (per-position
characterizations instead of threaded mutable state); the theorems below
compare them with the source-derived definitions. -/

/-- Group-mode output as the spec describes it, after the first chunk:
a chunk whose host equals the previous chunk's host is written bare, any
other chunk is preceded by a fresh `"[host] "` header. -/
def groupExpectedFrom (prev : String) : List (String × StreamKind × String) → List OutItem
  | [] => []
  | (h, k, d) :: rest =>
      (if h = prev then [OutItem.raw k d] else [OutItem.header h, OutItem.raw k d])
        ++ groupExpectedFrom h rest

/-- Group-mode output as the spec describes it: the very first chunk is
always preceded by a header (no host has been written yet), and from then
on a header appears exactly when the chunk's host differs from the
previous chunk's host. -/
def groupExpected : List (String × StreamKind × String) → List OutItem
  | [] => []
  | (h, k, d) :: rest => OutItem.header h :: OutItem.raw k d :: groupExpectedFrom h rest

/-- The distinct elements of a list in order of first occurrence. -/
def dedupFirst : List String → List String
  | [] => []
  | x :: xs => x :: (dedupFirst xs).filter (fun y => y ≠ x)

/-- The hosts (in the given key order) whose accumulated output equals `t`. -/
def groupHosts (output : List (String × String)) (ks : List String) (t : String) :
    List String :=
  ks.filter (fun h => textOf output h = t)

/-- The join summary as the claim states it: hosts partitioned by identical
accumulated output, each group carrying the hosts (in `Object.keys(output)`
order) and the rendered shared text, the groups ordered by the moment each
distinct text was first produced during accumulation — the first data event
whose host ends up with that text (texts never produced by any event, i.e.
belonging to silent hosts, follow in key order). -/
def joinSummarySpec (output : List (String × String))
    (events : List (String × StreamKind × String)) : List (List String × String) :=
  let ks := jsObjectKeys output
  let produced := dedupFirst (events.map (fun e => textOf output e.1))
  let texts :=
    produced ++ (dedupFirst (ks.map (textOf output))).filter (fun t => !produced.contains t)
  texts.map (fun t => (groupHosts output ks t, renderJoinText t))

/-- The join summary as amended: hosts partitioned by identical accumulated
output, each group carrying its hosts in `Object.keys(output)` order and
the rendered shared text, the groups ordered by the JavaScript own-property
order of the distinct texts — canonical array-index texts first in
ascending numeric order, then the remaining texts ordered by the first host
(in `Object.keys(output)` order) whose accumulated output equals the text. -/
def joinSummaryAmended (output : List (String × String)) : List (List String × String) :=
  let ks := jsObjectKeys output
  let texts := jsPropOrder (dedupFirst (ks.map (textOf output)))
  texts.map (fun t => (groupHosts output ks t, renderJoinText t))

/-- The observable result of the whole program: either a fatal
configuration error (with its `process.exit` code) before any dispatch,
or a completed run. -/
inductive MainResult where
  | configError (exit : Nat)
  | ran (final : RunState)
  deriving DecidableEq, Repr

/-- Top level of `sshp.js`: validate the configuration (`sshp.js:153-163`,
which calls `process.exit(1)` on rejection, so nothing is ever dispatched),
otherwise run the queue over the hosts. -/
def sshpMain (cfg : Config) (hosts : List String) (exitOf : String → Nat) : MainResult :=
  match validateConfig cfg with
  | some _ => MainResult.configError 1
  | none => MainResult.ran (runQueue cfg exitOf hosts)

/-- Number of queue tasks that were dispatched and completed in a
`MainResult`; a rejected configuration dispatches nothing. -/
def dispatchCount : MainResult → Nat
  | MainResult.configError _ => 0
  | MainResult.ran st => st.tasksDone

/-- The process's own exit code for a `MainResult`: `1` on a configuration
error, otherwise the aggregate `exitcode` passed to `process.exit` at
drain (`sshp.js:225`). -/
def mainExitCode : MainResult → Nat
  | MainResult.configError c => c
  | MainResult.ran st => st.exitcode

/-! ### Queue lemmas -/

/-- Unfolding a non-dry run from an arbitrary aggregate state: every host
is dispatched and closed, each close incrementing `i`, adding its status to
`exitcode`, and completing one task. -/
theorem foldl_processhost_not_dry (cfg : Config) (exitOf : String → Nat)
    (hosts : List String) (st : RunState) (hdry : cfg.dryrun = false) :
    hosts.foldl (processhost cfg exitOf) st =
      { i := st.i + hosts.length,
        exitcode := st.exitcode + (hosts.map exitOf).sum,
        tasksDone := st.tasksDone + hosts.length,
        spawned := st.spawned ++ hosts.map (cmdFor cfg),
        debugLog := st.debugLog ++ (if cfg.debug then hosts.map (cmdFor cfg) else []),
        closes := st.closes ++ hosts.map (fun h => (h, exitOf h)) } := by
  induction hosts generalizing st with
  | nil => simp
  | cons h t ih =>
      rw [List.foldl_cons, ih]
      simp only [processhost, closeHandler, hdry, if_false, Bool.false_eq_true]
      cases hdbg : cfg.debug <;>
        simp [hdbg, List.append_assoc] <;>
        omega

/-- Unfolding a dry run from an arbitrary aggregate state: every host's
argv is logged and its task completed immediately; nothing is spawned and
`i`, `exitcode`, `closes` are untouched. -/
theorem foldl_processhost_dry (cfg : Config) (exitOf : String → Nat)
    (hosts : List String) (st : RunState) (hdry : cfg.dryrun = true) :
    hosts.foldl (processhost cfg exitOf) st =
      { i := st.i,
        exitcode := st.exitcode,
        tasksDone := st.tasksDone + hosts.length,
        spawned := st.spawned,
        debugLog := st.debugLog ++ (if cfg.debug then hosts.map (cmdFor cfg) else []),
        closes := st.closes } := by
  induction hosts generalizing st with
  | nil => simp
  | cons h t ih =>
      rw [List.foldl_cons, ih]
      simp only [processhost, hdry, if_true]
      cases hdbg : cfg.debug <;>
        simp [hdbg, List.append_assoc] <;>
        omega

/-! ### Concrete fixtures for witnesses and counterexamples -/

/-- A plain line-mode configuration (all defaults, command "uptime"). -/
def cfgLineW : Config :=
  { debug := false, dryrun := false, errorcodes := false, group := false, join := false,
    silent := false, quiet := false, nostrict := false, login := "", port := 0,
    maxjobs := 30, command := ["uptime"] }

/-- A configuration with `maxjobs = 0` and otherwise valid options. -/
def cfgMaxZero : Config :=
  { debug := false, dryrun := false, errorcodes := false, group := false, join := false,
    silent := false, quiet := false, nostrict := false, login := "", port := 0,
    maxjobs := 0, command := ["uptime"] }

/-- A configuration with `maxjobs = -5` and otherwise valid options. -/
def cfgMaxNeg : Config :=
  { debug := false, dryrun := false, errorcodes := false, group := false, join := false,
    silent := false, quiet := false, nostrict := false, login := "", port := 0,
    maxjobs := -5, command := ["uptime"] }

/-- A dry-run configuration (`-n` sets both `dryrun` and `debug`). -/
def cfgDryW : Config :=
  { debug := true, dryrun := true, errorcodes := false, group := false, join := false,
    silent := false, quiet := false, nostrict := false, login := "", port := 0,
    maxjobs := 30, command := ["uptime"] }

/-! ### Claim theorems: the dispatcher and aggregate state -/

/-- C1: for every run that reaches drain (every modelled run drains once
all tasks complete), the exit code handed to `process.exit` equals the
literal integer sum of the exit statuses of all completed jobs, and it is
`0` exactly when every completed job exited with status `0`. -/
theorem aggregate_exit_is_sum (cfg : Config) (exitOf : String → Nat) (hosts : List String) :
    (runQueue cfg exitOf hosts).exitcode
        = ((runQueue cfg exitOf hosts).closes.map Prod.snd).sum
      ∧ ((runQueue cfg exitOf hosts).exitcode = 0
          ↔ ∀ p ∈ (runQueue cfg exitOf hosts).closes, p.2 = 0) := by
  have hmain :
      (runQueue cfg exitOf hosts).exitcode
        = ((runQueue cfg exitOf hosts).closes.map Prod.snd).sum := by
    cases hdry : cfg.dryrun with
    | false =>
        rw [runQueue, foldl_processhost_not_dry cfg exitOf hosts initRunState hdry]
        simp [initRunState, List.map_map, Function.comp_def]
    | true =>
        rw [runQueue, foldl_processhost_dry cfg exitOf hosts initRunState hdry]
        simp [initRunState]
  refine ⟨hmain, ?_⟩
  rw [hmain, List.sum_eq_zero_iff]
  constructor
  · intro hz p hp
    exact hz p.2 (List.mem_map.mpr ⟨p, hp, rfl⟩)
  · intro hz x hx
    rcases List.mem_map.mp hx with ⟨p, hp, rfl⟩
    exact hz p hp

/-- C1 witness: the theorem applied at a concrete run of two hosts that
both exit `1`. -/
theorem aggregate_exit_is_sum_witness :
    (runQueue cfgLineW (fun _ => 1) ["h1", "h2"]).exitcode = 0
      ↔ ∀ p ∈ (runQueue cfgLineW (fun _ => 1) ["h1", "h2"]).closes, p.2 = 0 :=
  (aggregate_exit_is_sum cfgLineW (fun _ => 1) ["h1", "h2"]).2

/-- C4: before any job is dispatched the configuration is validated, and
each of: group mode together with join mode, join mode together with
silent, and an empty remote-command list, is rejected as a fatal
configuration error with `process.exit(1)` (non-zero), with no dispatch
occurring. -/
theorem config_rejections_fatal (cfg : Config) (hosts : List String)
    (exitOf : String → Nat) :
    (sshpMain { cfg with command := [] } hosts exitOf = MainResult.configError 1
        ∧ dispatchCount (sshpMain { cfg with command := [] } hosts exitOf) = 0)
      ∧ (sshpMain { cfg with group := true, join := true } hosts exitOf
            = MainResult.configError 1
        ∧ dispatchCount (sshpMain { cfg with group := true, join := true } hosts exitOf) = 0)
      ∧ (sshpMain { cfg with join := true, silent := true } hosts exitOf
            = MainResult.configError 1
        ∧ dispatchCount (sshpMain { cfg with join := true, silent := true } hosts exitOf)
            = 0) := by
  have key : ∀ c : Config, validateConfig c ≠ none →
      sshpMain c hosts exitOf = MainResult.configError 1
        ∧ dispatchCount (sshpMain c hosts exitOf) = 0 := by
    intro c hc
    cases hm : validateConfig c with
    | none => exact absurd hm hc
    | some m => simp [sshpMain, hm, dispatchCount]
  refine ⟨key _ ?_, key _ ?_, key _ ?_⟩
  · simp [validateConfig]
  · by_cases hc : cfg.command.length = 0 <;> simp [validateConfig, hc]
  · by_cases hc : cfg.command.length = 0
    · simp [validateConfig, hc]
    · by_cases hg : cfg.group = true <;> simp [validateConfig, hc, hg]

/-- C5: a per-job failure — a non-zero exit status delivered at the job's
terminal `close` event (which is also how a failed spawn of the transport
surfaces, as a non-zero status) — is never fatal to the run: it is
recorded in the close trace, folded into the aggregate sum, and every
remaining host is still admitted and completed, for every assignment of
exit statuses. -/
theorem per_job_failure_not_fatal (cfg : Config) (exitOf : String → Nat)
    (hosts : List String) :
    (runQueue { cfg with dryrun := false } exitOf hosts).closes
        = hosts.map (fun h => (h, exitOf h))
      ∧ (runQueue { cfg with dryrun := false } exitOf hosts).tasksDone = hosts.length
      ∧ (runQueue { cfg with dryrun := false } exitOf hosts).exitcode
          = (hosts.map exitOf).sum := by
  rw [runQueue, foldl_processhost_not_dry { cfg with dryrun := false } exitOf hosts
    initRunState rfl]
  simp [initRunState]

/-- C7: in a dry run (the `-n` option, which also forces `debug`), the full
invocation argument vector of every host is still constructed and reported
as debug information, no external process is ever started, no process
lifecycle occurs (job completion is reported immediately: every task
completes with no close event), and the aggregate exit status is `0`. -/
theorem dry_run_no_spawn (cfg : Config) (exitOf : String → Nat) (hosts : List String) :
    (runQueue { cfg with dryrun := true, debug := true } exitOf hosts).spawned = []
      ∧ (runQueue { cfg with dryrun := true, debug := true } exitOf hosts).closes = []
      ∧ (runQueue { cfg with dryrun := true, debug := true } exitOf hosts).exitcode = 0
      ∧ (runQueue { cfg with dryrun := true, debug := true } exitOf hosts).debugLog
          = hosts.map (cmdFor { cfg with dryrun := true, debug := true })
      ∧ (runQueue { cfg with dryrun := true, debug := true } exitOf hosts).tasksDone
          = hosts.length := by
  rw [runQueue, foldl_processhost_dry { cfg with dryrun := true, debug := true } exitOf hosts
    initRunState rfl]
  simp [initRunState]

/-- C9: with a host list of length zero the queue drains immediately — the
drain condition (all pushed tasks completed) holds with zero events
processed — and the aggregate exit status is `0`. -/
theorem empty_hosts_drain_zero (cfg : Config) (exitOf : String → Nat) :
    (runQueue cfg exitOf []).exitcode = 0
      ∧ (runQueue cfg exitOf []).tasksDone = ([] : List String).length
      ∧ (runQueue cfg exitOf []).closes = [] :=
  ⟨rfl, rfl, rfl⟩

/-! ### Claim theorems: maxjobs validation (C6) -/

/-- C6 counterexample: a `maxjobs` of `0` (and of `-5`) with otherwise valid
options passes validation — no configuration error is reported, and the
top level proceeds to the queue — contradicting the claim that a
non-positive `maxjobs` is a configuration error reported before any job
starts. -/
theorem maxjobs_unvalidated_counterexample :
    cfgMaxZero.maxjobs = 0
      ∧ validateConfig cfgMaxZero = none
      ∧ sshpMain cfgMaxZero [] (fun _ => 0) = MainResult.ran initRunState
      ∧ cfgMaxNeg.maxjobs = -5
      ∧ validateConfig cfgMaxNeg = none := by
  refine ⟨rfl, rfl, rfl, rfl, rfl⟩

/-- C6 amended: a `maxjobs` of zero or negative is not a configuration
error: the pre-dispatch validation never examines `maxjobs`, so its result
is unchanged under any `maxjobs` value. -/
theorem validate_ignores_maxjobs (cfg : Config) (m : Int) :
    validateConfig { cfg with maxjobs := m } = validateConfig cfg := rfl

/-! ### Claim theorems: completed-count invariant (C8) -/

/-- C8 counterexample: in a dry run of one host the queue drains (the one
task completes) while the completed-job counter `i` is still `0`, never
reaching the total host count — the close handler that increments `i` is
skipped by the dry-run early return. -/
theorem dry_run_drain_without_count :
    (runQueue cfgDryW (fun _ => 0) ["h1"]).tasksDone = ["h1"].length
      ∧ (runQueue cfgDryW (fun _ => 0) ["h1"]).i = 0
      ∧ (runQueue cfgDryW (fun _ => 0) ["h1"]).i ≠ ["h1"].length := by
  refine ⟨rfl, rfl, ?_⟩
  decide

/-- C8 amended: in every non-dry run, the completed-job counter `i` after
any prefix of `k` terminal events equals `min k N` (for `N` hosts) — hence
it is monotonically non-decreasing, never exceeds the total host count,
reaches the total exactly when all jobs have closed, and the queue's drain
condition holds exactly then, strictly after the last job's terminal
event.  (In a dry run the counter instead stays `0` while drain still
fires, per the counterexample.) -/
theorem completed_count_invariant (cfg : Config) (exitOf : String → Nat)
    (hosts : List String) (k : Nat) :
    (runQueue { cfg with dryrun := false } exitOf (hosts.take k)).i = min k hosts.length
      ∧ (runQueue { cfg with dryrun := false } exitOf (hosts.take k)).i ≤ hosts.length
      ∧ ((runQueue { cfg with dryrun := false } exitOf (hosts.take k)).i = hosts.length
          ↔ hosts.length ≤ k)
      ∧ ((runQueue { cfg with dryrun := false } exitOf (hosts.take k)).tasksDone
            = hosts.length ↔ hosts.length ≤ k)
      ∧ (∀ j, j ≤ k →
          (runQueue { cfg with dryrun := false } exitOf (hosts.take j)).i
            ≤ (runQueue { cfg with dryrun := false } exitOf (hosts.take k)).i) := by
  have hi : ∀ n, (runQueue { cfg with dryrun := false } exitOf (hosts.take n)).i
      = min n hosts.length := by
    intro n
    rw [runQueue, foldl_processhost_not_dry { cfg with dryrun := false } exitOf
      (hosts.take n) initRunState rfl]
    simp [initRunState, List.length_take]
  have ht : (runQueue { cfg with dryrun := false } exitOf (hosts.take k)).tasksDone
      = min k hosts.length := by
    rw [runQueue, foldl_processhost_not_dry { cfg with dryrun := false } exitOf
      (hosts.take k) initRunState rfl]
    simp [initRunState, List.length_take]
  refine ⟨hi k, ?_, ?_, ?_, ?_⟩
  · rw [hi k]; omega
  · rw [hi k]; omega
  · rw [ht]; omega
  · intro j hjk
    rw [hi j, hi k]; omega

/-- C8 amended witness: the theorem applied at a concrete two-host run,
prefix `1` against prefix `2`. -/
theorem completed_count_invariant_witness :
    (runQueue { cfgLineW with dryrun := false } (fun _ => 1) (["h1", "h2"].take 1)).i
      ≤ (runQueue { cfgLineW with dryrun := false } (fun _ => 1) (["h1", "h2"].take 2)).i :=
  (completed_count_invariant cfgLineW (fun _ => 1) ["h1", "h2"] 2).2.2.2.2 1 (by omega)

/-! ### Claim theorems: output handlers (C3, C10) -/

/-- Processing one event and then the rest. -/
theorem runData_cons (cfg : Config) (st : OutState) (e : String × StreamKind × String)
    (rest : List (String × StreamKind × String)) :
    runData cfg st (e :: rest) = runData cfg (dataStep cfg st e) rest := rfl

/-- After some chunk has been written, a non-silent group-mode run writes,
for each further chunk, a header exactly when the chunk's host differs
from the shared `lasthost` value — which always equals the previous
chunk's host. -/
theorem runData_group_from (cfg : Config) (hs : cfg.silent = false)
    (hg : cfg.group = true) (events : List (String × StreamKind × String))
    (st : OutState) (prev : String) (hl : st.lasthost = some prev) :
    (runData cfg st events).written = st.written ++ groupExpectedFrom prev events := by
  induction events generalizing st prev with
  | nil => simp [runData, groupExpectedFrom]
  | cons e rest ih =>
      obtain ⟨h, k, d⟩ := e
      rw [runData_cons]
      by_cases hh : h = prev
      · have hstep : dataStep cfg st (h, k, d)
            = { st with written := st.written ++ [OutItem.raw k d] } := by
          cases k <;> simp [dataStep, out, err, hs, hg, hl, hh]
        rw [hstep, ih _ prev (by simp [hl])]
        simp [groupExpectedFrom, hh, List.append_assoc]
      · have hstep : dataStep cfg st (h, k, d)
            = { st with lasthost := some h,
                        written := st.written ++ [OutItem.header h, OutItem.raw k d] } := by
          cases k <;> simp [dataStep, out, err, hs, hg, hl, hh]
        rw [hstep, ih _ h rfl]
        simp [groupExpectedFrom, hh, List.append_assoc]

/-- C3: in group mode (not silent), for every serialized sequence of data
chunks across all hosts and both channels, the written output is exactly:
each chunk preceded by a one-line `"[host] "` header precisely when the
chunk's host differs from the single shared last-host-written value (the
previous chunk's host; the very first chunk always gets a header), the
chunk bytes themselves written raw — so two consecutive chunks from the
same host yield one header followed by both chunks' bytes, and a chunk
from a different host yields a new header. -/
theorem group_mode_headers (cfg : Config) (o : List (String × String))
    (events : List (String × StreamKind × String)) :
    (runData { cfg with silent := false, group := true }
        { lasthost := none, output := o, written := [] } events).written
      = groupExpected events := by
  cases events with
  | nil => rfl
  | cons e rest =>
      obtain ⟨h, k, d⟩ := e
      rw [runData_cons]
      have hstep : dataStep { cfg with silent := false, group := true }
            { lasthost := none, output := o, written := [] } (h, k, d)
          = { lasthost := some h, output := o,
              written := [OutItem.header h, OutItem.raw k d] } := by
        cases k <;> simp [dataStep, out, err]
      rw [hstep,
        runData_group_from { cfg with silent := false, group := true } rfl rfl rest _ h rfl]
      simp [groupExpected]

/-- C10: with the silent flag set, the per-chunk data handlers write
nothing at all — the whole handler state (including the written-output
trace, so in particular no group-mode `"[host] "` headers, and the
accumulator) is left untouched for every sequence of chunks, because the
handlers return before the header check. -/
theorem silent_suppresses_all_output (cfg : Config) (st : OutState)
    (events : List (String × StreamKind × String)) :
    runData { cfg with silent := true } st events = st := by
  induction events generalizing st with
  | nil => rfl
  | cons e rest ih =>
      obtain ⟨h, k, d⟩ := e
      rw [runData, List.foldl_cons]
      cases k <;>
        · simp only [dataStep, out, err, if_true, ite_true, reduceIte]
          exact ih st

/-! ### Object and permutation lemmas for the join summary -/

theorem jsGet_jsSet_self {α : Type} (o : List (String × α)) (k : String) (v : α) :
    jsGet (jsSet o k v) k = some v := by
  induction o with
  | nil => simp [jsGet, jsSet]
  | cons p rest ih =>
      by_cases hp : p.1 = k <;> simp [jsGet, jsSet, hp, ih]

theorem jsGet_jsSet_ne {α : Type} (o : List (String × α)) (k k' : String) (v : α)
    (hk : k' ≠ k) : jsGet (jsSet o k v) k' = jsGet o k' := by
  have hk2 : ¬(k = k') := fun h => hk h.symm
  induction o with
  | nil => simp [jsGet, jsSet, hk2]
  | cons p rest ih =>
      by_cases hp : p.1 = k
      · have hp' : ¬(p.1 = k') := by rw [hp]; exact hk2
        simp [jsGet, jsSet, hp, hp', hk2]
      · simp [jsGet, jsSet, hp, ih]

theorem jsSet_keys_present {α : Type} (o : List (String × α)) (k : String) (v : α)
    (h : (jsGet o k).isSome) : (jsSet o k v).map Prod.fst = o.map Prod.fst := by
  induction o with
  | nil => simp [jsGet] at h
  | cons p rest ih =>
      by_cases hp : p.1 = k
      · simp [jsSet, hp]
      · simp only [jsGet, hp, if_false, ite_false, reduceIte] at h
        simp [jsSet, hp, ih h]

theorem jsSet_keys_absent {α : Type} (o : List (String × α)) (k : String) (v : α)
    (h : jsGet o k = none) : (jsSet o k v).map Prod.fst = o.map Prod.fst ++ [k] := by
  induction o with
  | nil => simp [jsSet]
  | cons p rest ih =>
      by_cases hp : p.1 = k
      · simp [jsGet, hp] at h
      · simp only [jsGet, hp, if_false, ite_false, reduceIte] at h
        simp [jsSet, hp, ih h]

theorem mem_dedupFirst (x : String) (l : List String) : x ∈ dedupFirst l ↔ x ∈ l := by
  induction l with
  | nil => simp [dedupFirst]
  | cons y ys ih =>
      by_cases hx : x = y
      · simp [dedupFirst, hx]
      · simp [dedupFirst, hx, List.mem_filter, ih]

theorem dedupFirst_append_singleton (l : List String) (x : String) :
    dedupFirst (l ++ [x]) = dedupFirst l ++ (if x ∈ l then [] else [x]) := by
  induction l with
  | nil => simp [dedupFirst]
  | cons y ys ih =>
      by_cases hx : x = y
      · subst hx
        by_cases hm : x ∈ ys <;>
          simp [dedupFirst, ih, hm, List.filter_append]
      · by_cases hm : x ∈ ys <;>
          simp [dedupFirst, ih, hm, hx, List.filter_append, List.mem_cons]

theorem mem_insertAsc (x k : String) (l : List String) :
    x ∈ insertAsc k l ↔ x = k ∨ x ∈ l := by
  induction l with
  | nil => simp [insertAsc]
  | cons y ys ih =>
      by_cases hc : keyNumVal k ≤ keyNumVal y
      · simp [insertAsc, hc]
      · simp only [insertAsc, hc, if_false, ite_false, reduceIte, List.mem_cons, ih]
        tauto

theorem mem_sortAsc (x : String) (l : List String) : x ∈ sortAsc l ↔ x ∈ l := by
  induction l with
  | nil => simp [sortAsc]
  | cons y ys ih =>
      simp only [sortAsc, List.foldr_cons] at *
      rw [mem_insertAsc, ih, List.mem_cons]

theorem mem_jsPropOrder (x : String) (l : List String) : x ∈ jsPropOrder l ↔ x ∈ l := by
  simp only [jsPropOrder, List.mem_append, mem_sortAsc, List.mem_filter]
  by_cases hx : isArrayIndexKey x = true
  · simp [hx]
  · simp [hx]

/-- The invariant tying the `diff` object to the prefix `p` of hosts already
folded in: its keys are the distinct accumulated texts of `p` in first
occurrence order, and `diff[t]` holds exactly the hosts of `p` (in `p`
order) whose text is `t`. -/
def diffInv (output : List (String × String)) (p : List String)
    (d : List (String × List String)) : Prop :=
  d.map Prod.fst = dedupFirst (p.map (textOf output))
    ∧ ∀ t, jsGet d t
        = if t ∈ p.map (textOf output) then some (groupHosts output p t) else none

theorem diffInv_step (output : List (String × String)) (p : List String)
    (d : List (String × List String)) (h : String) (hinv : diffInv output p d) :
    diffInv output (p ++ [h]) (diffStep output d h) := by
  obtain ⟨hkeys, hget⟩ := hinv
  have hmap : (p ++ [h]).map (textOf output) = p.map (textOf output) ++ [textOf output h] := by
    simp
  have hgroup : ∀ t, groupHosts output (p ++ [h]) t
      = groupHosts output p t ++ (if textOf output h = t then [h] else []) := by
    intro t
    simp only [groupHosts, List.filter_append]
    congr 1
    by_cases ht : textOf output h = t <;> simp [ht]
  by_cases hmem : textOf output h ∈ p.map (textOf output)
  · constructor
    · rw [diffStep, jsSet_keys_present _ _ _ (by rw [hget, if_pos hmem]; rfl), hkeys, hmap,
        dedupFirst_append_singleton, if_pos hmem, List.append_nil]
    · intro t
      by_cases htt : t = textOf output h
      · subst htt
        rw [diffStep, jsGet_jsSet_self, hget, if_pos hmem, hmap, if_pos (by simp)]
        simp [hgroup]
      · rw [diffStep, jsGet_jsSet_ne _ _ _ _ htt, hget t, hmap]
        have hmem2 : (t ∈ p.map (textOf output) ++ [textOf output h])
            ↔ t ∈ p.map (textOf output) := by
          simp only [List.mem_append, List.mem_singleton]
          exact ⟨fun hc => hc.resolve_right htt, fun hc => Or.inl hc⟩
        have hite : (if textOf output h = t then [h] else ([] : List String)) = [] :=
          if_neg (fun hc => htt hc.symm)
        by_cases hmt : t ∈ p.map (textOf output)
        · rw [if_pos hmt, if_pos (hmem2.mpr hmt), hgroup t, hite, List.append_nil]
        · rw [if_neg hmt, if_neg (fun hc => hmt (hmem2.mp hc))]
  · have hnone : jsGet d (textOf output h) = none := by rw [hget, if_neg hmem]
    constructor
    · rw [diffStep, jsSet_keys_absent _ _ _ hnone, hkeys, hmap,
        dedupFirst_append_singleton, if_neg hmem]
    · intro t
      by_cases htt : t = textOf output h
      · subst htt
        rw [diffStep, jsGet_jsSet_self, hnone, hmap]
        have hempty : groupHosts output p (textOf output h) = [] := by
          rw [groupHosts, List.filter_eq_nil_iff]
          intro a ha hc
          exact hmem (List.mem_map.mpr ⟨a, ha, by simpa using hc⟩)
        rw [if_pos (by simp), hgroup, hempty]
        simp
      · rw [diffStep, jsGet_jsSet_ne _ _ _ _ htt, hget t, hmap]
        have hmem2 : (t ∈ p.map (textOf output) ++ [textOf output h])
            ↔ t ∈ p.map (textOf output) := by
          simp only [List.mem_append, List.mem_singleton]
          exact ⟨fun hc => hc.resolve_right htt, fun hc => Or.inl hc⟩
        have hite : (if textOf output h = t then [h] else ([] : List String)) = [] :=
          if_neg (fun hc => htt hc.symm)
        by_cases hmt : t ∈ p.map (textOf output)
        · rw [if_pos hmt, if_pos (hmem2.mpr hmt), hgroup t, hite, List.append_nil]
        · rw [if_neg hmt, if_neg (fun hc => hmt (hmem2.mp hc))]

theorem diffInv_fold (output : List (String × String)) (ks p : List String)
    (d : List (String × List String)) (hinv : diffInv output p d) :
    diffInv output (p ++ ks) (ks.foldl (diffStep output) d) := by
  induction ks generalizing p d with
  | nil => simpa using hinv
  | cons k rest ih =>
      have h1 := diffInv_step output p d k hinv
      have h2 := ih (p ++ [k]) (diffStep output d k) h1
      simpa [List.append_assoc] using h2

theorem buildDiff_inv (output : List (String × String)) (ks : List String) :
    diffInv output ks (buildDiff output ks) := by
  have hbase : diffInv output [] [] := by
    constructor
    · rfl
    · intro t
      simp [jsGet]
  simpa using diffInv_fold output ks [] [] hbase

/-! ### Claim theorems: the join summary (C2) -/

/-- A join-mode configuration for the concrete counterexample runs. -/
def cfgJoinW : Config :=
  { debug := false, dryrun := false, errorcodes := false, group := false, join := true,
    silent := false, quiet := false, nostrict := false, login := "", port := 0,
    maxjobs := 30, command := ["uptime"] }

/-- Accumulation events where host `a` produces `"x"` first and host `b`
then produces the array-index-like text `"5"`. -/
def evNumeric : List (String × StreamKind × String) :=
  [("a", StreamKind.stdout, "x"), ("b", StreamKind.stdout, "5")]

/-- The accumulated output map of the `evNumeric` run over hosts
`["a", "b"]`. -/
def outNumeric : List (String × String) :=
  (runData cfgJoinW (initOutState ["a", "b"]) evNumeric).output

/-- Accumulation events where host `bb` produces `"y"` strictly before
host `aa` produces `"x"`, against host list `["aa", "bb"]`. -/
def evTemporal : List (String × StreamKind × String) :=
  [("bb", StreamKind.stdout, "y"), ("aa", StreamKind.stdout, "x")]

/-- The accumulated output map of the `evTemporal` run over hosts
`["aa", "bb"]`. -/
def outTemporal : List (String × String) :=
  (runData cfgJoinW (initOutState ["aa", "bb"]) evTemporal).output

/-- C2 counterexample: the drain summary does not print groups in the
order the distinct texts were first produced.  First, `Object.keys` puts
array-index-like keys first: with `"x"` produced before `"5"`, the code
prints the `"5"` group first.  Second, group order follows the host-list
order of `Object.keys(output)`, not production time: with `bb` producing
`"y"` strictly before `aa` produced `"x"`, the code still prints the
`"x"` group (host `aa`) first. -/
theorem join_summary_order_counterexample :
    joinSummary outNumeric = [(["b"], "5"), (["a"], "x")]
      ∧ joinSummarySpec outNumeric evNumeric = [(["a"], "x"), (["b"], "5")]
      ∧ joinSummary outNumeric ≠ joinSummarySpec outNumeric evNumeric
      ∧ joinSummary outTemporal = [(["aa"], "x"), (["bb"], "y")]
      ∧ joinSummarySpec outTemporal evTemporal = [(["bb"], "y"), (["aa"], "x")]
      ∧ joinSummary outTemporal ≠ joinSummarySpec outTemporal evTemporal := by
  refine ⟨by decide, by decide, by decide, by decide, by decide, by decide⟩

/-- C2 amended: at drain the summary partitions hosts by byte-for-byte
identical accumulated output (the empty string forming a valid group,
rendered as "no output"), prints each group's host list followed by the
shared text once, and the groups are printed in JavaScript own-property
order of the distinct texts: canonical array-index texts first in
ascending numeric order, then the remaining texts ordered by the first
host (in `Object.keys(output)` order) whose accumulated output equals the
text. -/
theorem join_summary_amended (output : List (String × String)) :
    joinSummary output = joinSummaryAmended output := by
  obtain ⟨hkeys, hget⟩ := buildDiff_inv output (jsObjectKeys output)
  have hdk : jsObjectKeys (buildDiff output (jsObjectKeys output))
      = jsPropOrder (dedupFirst ((jsObjectKeys output).map (textOf output))) := by
    show jsPropOrder ((buildDiff output (jsObjectKeys output)).map Prod.fst) = _
    rw [hkeys]
  simp only [joinSummary, joinSummaryAmended, hdk]
  refine List.map_congr_left ?_
  intro t ht
  have htmem : t ∈ (jsObjectKeys output).map (textOf output) :=
    (mem_dedupFirst t _).mp ((mem_jsPropOrder t _).mp ht)
  rw [hget t, if_pos htmem]
  rfl

end Sshp
